import Mathlib

/-!
Verification of the yogastraa-site static generator
(`scripts/generate-articles.js`, media-aware variant).

Strings are modelled as `List Char`; JavaScript string operations used by the
generator (`replaceAll`, `split`, `trim`, regex character classes, template
interpolation) are given explicit executable definitions below.  JavaScript
falsiness on optional string fields (null / undefined / empty string) is
modelled with `Option Str` plus an emptiness test.
-/

set_option maxRecDepth 4000

abbrev Str := List Char

/-- Coerces a Lean string literal to the `List Char` representation. -/
def str (s : String) : Str := s.data

/-- Scanner for JavaScript `String.prototype.replaceAll` with a non-empty
pattern: left-to-right, non-overlapping, the replacement is not rescanned.
The `fuel` argument only makes the recursion structural (each step consumes
at least one character of `s`, so any `fuel ≥ s.length` gives the scan
meaning); it lets concrete instances reduce inside the kernel. -/
def replaceAllGo (pat repl : Str) : Nat → Str → Str
  | _, [] => []
  | 0, s => s
  | fuel + 1, c :: rest =>
    if pat.isPrefixOf (c :: rest) && !pat.isEmpty then
      repl ++ replaceAllGo pat repl fuel ((c :: rest).drop pat.length)
    else
      c :: replaceAllGo pat repl fuel rest

/-- JavaScript `s.replaceAll(pat, repl)`.  An empty pattern interleaves the
replacement between every character, as in JavaScript. -/
def replaceAll (pat repl s : Str) : Str :=
  if pat.isEmpty then repl ++ (s.map (fun c => c :: repl)).flatten
  else replaceAllGo pat repl s.length s

/-- JavaScript `Array.prototype.join(sep)`. -/
def joinSep (sep : Str) : List Str → Str
  | [] => []
  | [x] => x
  | x :: y :: rest => x ++ sep ++ joinSep sep (y :: rest)

/-- The ASCII whitespace characters matched by the `\s` regex class (and
stripped by `String.prototype.trim`) that can occur in the API text. -/
def isWs (c : Char) : Bool :=
  c == ' ' || c == '\t' || c == '\n' || c == '\r' || c == '\x0b' || c == '\x0c'

/-- JavaScript `String.prototype.trim`. -/
def jsTrim (s : Str) : Str :=
  ((s.dropWhile isWs).reverse.dropWhile isWs).reverse

/-- State scanner for `s.replace(/\s+/g, ' ')`: `inWs` records whether the
previous character belonged to a whitespace run that has already produced
its single space. -/
def collapseGo (inWs : Bool) : Str → Str
  | [] => []
  | c :: rest =>
    if isWs c then
      if inWs then collapseGo true rest else ' ' :: collapseGo true rest
    else c :: collapseGo false rest

/-- JavaScript `s.replace(/\s+/g, ' ')`: each maximal whitespace run becomes a
single space. -/
def collapseWs (s : Str) : Str := collapseGo false s

/-- Index of the last newline inside a string, if any. -/
def lastNl : Str → Option Nat
  | [] => none
  | c :: rest =>
    match lastNl rest with
    | some i => some (i + 1)
    | none => if c = '\n' then some 0 else none

/-- After a first `'\n'` has been read, decides whether the regex
`/\n\s*\n/` matches here: greedily extend `\s*` through the following
whitespace run and require one further `'\n'` inside it.  Returns the
remainder of the string after the match. -/
def paraBreak (rest : Str) : Option Str :=
  match lastNl (rest.takeWhile isWs) with
  | some k => some (rest.drop (k + 1))
  | none => none

theorem paraBreak_length {rest r2 : Str} (h : paraBreak rest = some r2) :
    r2.length ≤ rest.length := by
  unfold paraBreak at h
  cases hl : lastNl (rest.takeWhile isWs) with
  | none => simp [hl] at h
  | some k =>
    simp only [hl] at h
    cases h
    simp [List.length_drop]

/-- Scanner for JavaScript `text.split(/\n\s*\n/)`; `acc` holds the current
piece in reverse. -/
def splitGo (acc : Str) : Str → List Str
  | [] => [acc.reverse]
  | c :: rest =>
    if c = '\n' then
      match h : paraBreak rest with
      | some rest2 => acc.reverse :: splitGo [] rest2
      | none => splitGo (c :: acc) rest
    else
      splitGo (c :: acc) rest
termination_by s => s.length
decreasing_by
  · have := paraBreak_length h
    simp only [List.length_cons]; omega
  · simp only [List.length_cons]; omega
  · simp only [List.length_cons]; omega

/-- JavaScript `String(text).split(/\n\s*\n/)` as used by `textToHtml`. -/
def splitParas (text : Str) : List Str := splitGo [] text

/-- Embeds `escapeHtml` from `scripts/generate-articles.js` (lines 15-22): null and
undefined become the empty string, otherwise the four chained `replaceAll`
calls run in source order. -/
def escapeHtml (s : Option Str) : Str :=
  match s with
  | none => []
  | some t =>
    replaceAll (str "\"") (str "&quot;")
      (replaceAll (str ">") (str "&gt;")
        (replaceAll (str "<") (str "&lt;")
          (replaceAll (str "&") (str "&amp;") t)))

/-- Embeds `escapeHtml` applied to a definite (non-null) string. -/
def esc (t : Str) : Str := escapeHtml (some t)

/-- Embeds `textToHtml` from `scripts/generate-articles.js` (lines 25-29). -/
def textToHtml (text : Str) : Str :=
  if text.isEmpty then []
  else
    joinSep (str "\n")
      ((((splitParas text).map jsTrim).filter (fun p => !p.isEmpty)).map
        (fun p => str "<p>" ++ replaceAll (str "\n") (str "<br/>") (esc p) ++ str "</p>"))

/-- Character-wise description of `escapeHtml`: the image of one character. -/
def escChar (c : Char) : Str :=
  if c = '&' then str "&amp;"
  else if c = '<' then str "&lt;"
  else if c = '>' then str "&gt;"
  else if c = '"' then str "&quot;"
  else [c]

/-- Character-wise description of the paragraph body produced by
`textToHtml`: escaping followed by the newline-to-`<br/>` rewrite. -/
def escBrChar (c : Char) : Str :=
  if c = '\n' then str "<br/>" else escChar c

/-- The only markup `textToHtml` is allowed to emit around escaped text. -/
def whitelistTokens : List Str :=
  [str "<p>", str "</p>", str "<br/>", str "&amp;", str "&lt;", str "&gt;", str "&quot;"]

/-- A string is `Safe` when every occurrence of `<`, `>`, `"` or `&` lies
inside one of the whitelisted tags or entities. -/
inductive Safe : Str → Prop where
  | nil : Safe []
  | plain (c : Char) (s : Str) :
      c ≠ '<' → c ≠ '>' → c ≠ '"' → c ≠ '&' → Safe s → Safe (c :: s)
  | tok (t s : Str) : t ∈ whitelistTokens → Safe s → Safe (t ++ s)

/-- A needle occurs verbatim somewhere inside a haystack. -/
def hasSubstr (needle hay : Str) : Prop := ∃ u v, hay = u ++ needle ++ v

/-- Executable occurrence scan used to state the no-placeholder hypothesis. -/
def occursIn (pat : Str) : Str → Bool
  | [] => pat.isEmpty
  | c :: rest => pat.isPrefixOf (c :: rest) || occursIn pat rest

/-- Renders a natural number the way JavaScript template interpolation
renders `a.id`, `idx`, or an HTTP status. -/
def natStr (n : Nat) : Str := (toString n).data

/-- Splits a path into its non-empty `/`-separated segments; `cur` holds the
characters of the segment being read, in reverse. -/
def segsGo (cur : Str) : Str → List Str
  | [] => if cur.isEmpty then [] else [cur.reverse]
  | c :: rest =>
    if c = '/' then
      if cur.isEmpty then segsGo [] rest else cur.reverse :: segsGo [] rest
    else segsGo (c :: cur) rest

/-- The non-empty segments of a POSIX path (duplicate, leading and trailing
separators contribute none). -/
def segsOf (p : Str) : List Str := segsGo [] p

/-- Reassembles segments with `/` separators. -/
def renderSegs (segs : List Str) : Str := joinSep (str "/") segs

/-- The segment resolution loop of Node `path.normalize`: `.` is dropped,
`..` pops the previous segment when one exists; in a relative path leading
`..` segments are kept, in an absolute path they are dropped.  `out` holds
the resolved segments in reverse. -/
def normSegsGo (isAbs : Bool) (out : List Str) : List Str → List Str
  | [] => out.reverse
  | seg :: rest =>
    if seg = str "." then normSegsGo isAbs out rest
    else if seg = str ".." then
      match out with
      | top :: outRest =>
        if top = str ".." then normSegsGo isAbs (seg :: out) rest
        else normSegsGo isAbs outRest rest
      | [] => if isAbs then normSegsGo isAbs [] rest else normSegsGo isAbs [seg] rest
    else normSegsGo isAbs (seg :: out) rest

def hasTrailingSlash (p : Str) : Bool := p.getLast? == some '/'

def isAbsPath (p : Str) : Bool := p.head? == some '/'

/-- Node `path.normalize` for POSIX paths: resolve `.` and `..` segments,
collapse separators, keep a trailing separator, render `.` (or `./`, `/`)
when nothing remains. -/
def normalizePath (p : Str) : Str :=
  let isAbs := isAbsPath p
  let core := renderSegs (normSegsGo isAbs [] (segsOf p))
  if core.isEmpty then
    if isAbs then str "/" else if hasTrailingSlash p then str "./" else str "."
  else
    (if isAbs then str "/" ++ core else core) ++
      (if hasTrailingSlash p then str "/" else [])

/-- Node `path.join(a, b)`: empty parts are skipped, the rest are joined
with `/` and the result is normalized.  The output root is modelled as the
relative directory `public`; the constant absolute prefix that
`path.resolve` would add is not modelled, which matters only for slugs with
enough `..` segments to climb above it. -/
def pathJoin (a b : Str) : Str :=
  normalizePath (if a.isEmpty then b else if b.isEmpty then a else a ++ str "/" ++ b)

/-- A path string that normalization leaves untouched in any join position:
it has at least one segment, none of its segments is `.` or `..`, and it
round-trips through segment split and reassembly (so it has no duplicate,
leading or trailing separators). -/
def cleanPath (p : Str) : Bool :=
  !(segsOf p).isEmpty &&
    (segsOf p).all (fun seg => seg != str "." && seg != str "..") &&
    (renderSegs (segsOf p) == p)

/-- JavaScript `a.field || dflt` for an optional string field: null,
undefined and the empty string all fall through to the default. -/
def jsOr (o : Option Str) (dflt : Str) : Str :=
  match o with
  | some s => if s.isEmpty then dflt else s
  | none => dflt

/-- A category or health-condition record; only `name` is read. -/
structure Category where
  name : Option Str

/-- An image record; only `url` is read. -/
structure Image where
  url : Str

/-- An article record as fetched from the API.  `Option` on the list fields
models the `Array.isArray` guards (a missing or non-array value is `none`). -/
structure Article where
  id : Nat
  slug : Option Str
  title : Option Str
  content : Option Str
  author : Option Str
  createdAt : Option Str
  updatedAt : Option Str
  categories : Option (List Category)
  healthConditions : Option (List Category)
  images : Option (List Image)
  videoUrl : Option Str

/-- The `|| {}` fallback object in the list-page generator: every field reads
as undefined. -/
def emptyArticle : Article :=
  { id := 0, slug := none, title := none, content := none, author := none,
    createdAt := none, updatedAt := none, categories := none,
    healthConditions := none, images := none, videoUrl := none }

/-- A tip record as fetched from the API. -/
structure Tip where
  content : Option Str
  category : Option Category
  createdAt : Option Str

/-- The per-article record pushed onto `articlePages`. -/
structure RenderedPage where
  slug : Str
  title : Str
  urlDir : Str
  urlFile : Str
  date : Str
  firstImage : Str
  foundData : Article

/-- The three loaded templates. -/
structure Templates where
  articleTpl : Str
  listTpl : Str
  tipsListTpl : Str

def API_BASE : Str := str "https://yogastra-backend-2d084cc0cf9e.herokuapp.com"
def articlesUrl : Str := API_BASE ++ str "/articles"
def tipsUrl : Str := API_BASE ++ str "/tips"
def OUT_DIR : Str := str "public"
def ARTICLES_DIR : Str := pathJoin (pathJoin OUT_DIR (str "knowledge")) (str "articles")
def TIPS_DIR : Str := pathJoin (pathJoin OUT_DIR (str "knowledge")) (str "tips")
def baseUrl : Str := str "https://yogastraa.com"
def siteImage : Str := baseUrl ++ str "/assets/yogastraa.jpg"

/-- Slug resolution: `a.slug || article-$\x7ba.id\x7d`. -/
def slugOf (a : Article) : Str := jsOr a.slug (str "article-" ++ natStr a.id)

def urlPathDir (slug : Str) : Str := str "/knowledge/articles/" ++ slug ++ str "/"
def urlPathFile (slug : Str) : Str := str "/knowledge/articles/" ++ slug ++ str ".html"
def articleIndexPath (slug : Str) : Str := pathJoin (pathJoin ARTICLES_DIR slug) (str "index.html")
def articleFlatPath (slug : Str) : Str := pathJoin ARTICLES_DIR (slug ++ str ".html")
def articlesIndexPath : Str := pathJoin ARTICLES_DIR (str "index.html")
def articlesFlatPath : Str := pathJoin (pathJoin OUT_DIR (str "knowledge")) (str "articles.html")
def tipsIndexPath : Str := pathJoin TIPS_DIR (str "index.html")
def tipsFlatPath : Str := pathJoin (pathJoin OUT_DIR (str "knowledge")) (str "tips.html")
def sitemapPath : Str := pathJoin OUT_DIR (str "sitemap.xml")
def robotsPath : Str := pathJoin OUT_DIR (str "robots.txt")
def cnamePath : Str := pathJoin OUT_DIR (str "CNAME")

/-- Embeds `formatISO` (lines 50-52).  `jsISO` models the host `Date` engine:
`jsISO d = some s` when `new Date(d)` is a valid date whose `toISOString()`
prints `s`; `none` when the date is invalid, in which case `toISOString`
throws and the catch substitutes the current timestamp `now`. -/
def formatISO (jsISO : Str → Option Str) (now dateStr : Str) : Str :=
  match jsISO dateStr with
  | some s => s
  | none => now

/-- Embeds `prettyDateISO` (lines 54-59).  `jsLoc` models
`Date.prototype.toLocaleDateString` for valid dates; on an invalid date that
method does not throw but returns the string `"Invalid Date"`, so the catch
branch that would return the raw input is unreachable. -/
def prettyDateISO (jsLoc : Str → Option Str) (dateStr : Str) : Str :=
  match jsLoc dateStr with
  | some s => s
  | none => str "Invalid Date"

/-- The truncation of `excerptText`: JavaScript
`truncated.replace(/\s+\S*$/, '')` removes the trailing whitespace run and
the partial word after it, when such a run exists. -/
def dropTrailWord (s : Str) : Str :=
  let r := s.reverse
  let a := r.takeWhile (fun c => !isWs c)
  let rest := r.drop a.length
  let b := rest.takeWhile isWs
  if b.isEmpty then s else (rest.drop b.length).reverse

/-- Embeds `excerptText` (lines 61-67). -/
def excerptText (text : Str) (max : Nat) : Str :=
  if text.isEmpty then []
  else
    let t := jsTrim (collapseWs text)
    if t.length ≤ max then t
    else dropTrailWord (t.take max) ++ str "..."

/-- The `[A-Za-z0-9_-]` class of the YouTube id capture group. -/
def ytIdChar (c : Char) : Bool := c.isAlphanum || c == '_' || c == '-'

/-- One alternative of the YouTube regex tried at the current position. -/
def ytAlt (pre s : Str) : Option Str :=
  if pre.isPrefixOf s then
    let cand := (s.drop pre.length).takeWhile ytIdChar
    if 6 ≤ cand.length then some cand else none
  else none

/-- Position-by-position scan of the regex
`(?:v=|\/embed\/|youtu\.be\/|\/v\/)([A-Za-z0-9_-]\x7b6,\x7d)`. -/
def ytScan : Str → Option Str
  | [] => none
  | c :: rest =>
    match ytAlt (str "v=") (c :: rest) <|> ytAlt (str "/embed/") (c :: rest) <|>
        ytAlt (str "youtu.be/") (c :: rest) <|> ytAlt (str "/v/") (c :: rest) with
    | some i => some i
    | none => ytScan rest

/-- Embeds `youtubeIdFromUrl` (lines 69-74). -/
def youtubeIdFromUrl (url : Option Str) : Option Str :=
  match url with
  | none => none
  | some u => if u.isEmpty then none else ytScan u

/-- The `new Set(...)` deduplication of keywords: first occurrence kept,
order preserved. -/
def setDedup : List Str → List Str
  | [] => []
  | x :: xs => x :: (setDedup xs).filter (fun y => y != x)

/-- Embeds `(Array.isArray(xs) ? xs.map(c => c.name) : []).filter(Boolean)`. -/
def truthyNames (o : Option (List Category)) : List Str :=
  ((o.getD []).map (fun c => c.name)).filterMap fun n =>
    match n with
    | some s => if s.isEmpty then none else some s
    | none => none

/-- The character class kept by `slug.replace(/[^a-z0-9_-]/gi, '')`
(the `i` flag also admits upper-case letters). -/
def isCidKeep (c : Char) : Bool :=
  ('a' ≤ c && c ≤ 'z') || ('A' ≤ c && c ≤ 'Z') || ('0' ≤ c && c ≤ '9') ||
    c == '_' || c == '-'

/-- The carousel identifier (line 125): a global character-class deletion is
exactly a filter by the complement class. -/
def carouselId (slug : Str) : Str := str "carousel-" ++ slug.filter isCidKeep

/-- Embeds `List.map` with the element index, as used by `imgs.map((im, idx) => ...)`. -/
def mapIdxGo (f : Nat → α → β) (i : Nat) : List α → List β
  | [] => []
  | x :: xs => f i x :: mapIdxGo f (i + 1) xs

def mapIdxL (f : Nat → α → β) (l : List α) : List β := mapIdxGo f 0 l

/-- One carousel indicator button (line 126); `active` stands for the inline
conditional `idx === 0`. -/
def indicatorHtml (cid : Str) (idx : Nat) (active : Bool) : Str :=
  str "<button type=\"button\" data-bs-target=\"#" ++ cid ++
    str "\" data-bs-slide-to=\"" ++ natStr idx ++ str "\" " ++
    (if active then str "class=\"active\" aria-current=\"true\"" else []) ++
    str " aria-label=\"Slide " ++ natStr (idx + 1) ++ str "\"></button>"

/-- One carousel slide (line 127). -/
def itemHtml (title : Str) (im : Image) (active : Bool) : Str :=
  str "<div class=\"carousel-item " ++ (if active then str "active" else []) ++
    str "\"><img src=\"" ++ esc im.url ++ str "\" class=\"d-block w-100\" alt=\"" ++
    esc title ++ str "\"></div>"

def carouselIndicators (cid : Str) (imgs : List Image) : List Str :=
  mapIdxL (fun idx _ => indicatorHtml cid idx (idx == 0)) imgs

def carouselItems (title : Str) (imgs : List Image) : List Str :=
  mapIdxL (fun idx im => itemHtml title im (idx == 0)) imgs

/-- The full bootstrap carousel block (lines 128-144). -/
def carouselHtml (cid title : Str) (imgs : List Image) : Str :=
  str "\n<div id=\"" ++ cid ++
    str "\" class=\"carousel slide mb-3 article-carousel\" data-bs-ride=\"carousel\">\n  <div class=\"carousel-indicators\">\n    " ++
    joinSep (str "\n") (carouselIndicators cid imgs) ++
    str "\n  </div>\n  <div class=\"carousel-inner\">\n    " ++
    joinSep (str "\n") (carouselItems title imgs) ++
    str "\n  </div>\n  <button class=\"carousel-control-prev\" type=\"button\" data-bs-target=\"#" ++ cid ++
    str "\" data-bs-slide=\"prev\">\n    <span class=\"carousel-control-prev-icon\" aria-hidden=\"true\"></span>\n    <span class=\"visually-hidden\">Previous</span>\n  </button>\n  <button class=\"carousel-control-next\" type=\"button\" data-bs-target=\"#" ++ cid ++
    str "\" data-bs-slide=\"next\">\n    <span class=\"carousel-control-next-icon\" aria-hidden=\"true\"></span>\n    <span class=\"visually-hidden\">Next</span>\n  </button>\n</div>"

/-- The single-image block (line 122). -/
def singleImageHtml (title : Str) (im : Image) : Str :=
  str "<div class=\"mb-3 article-carousel\"><img src=\"" ++ esc im.url ++
    str "\" alt=\"" ++ esc title ++ str "\" class=\"img-fluid rounded\" /></div>"

/-- Embeds `imagesCarouselHtml` (lines 117-145): empty, single image, or carousel. -/
def imagesCarouselHtml (slug title : Str) (images : Option (List Image)) : Str :=
  match images.getD [] with
  | [] => []
  | [im] => singleImageHtml title im
  | imgs@(_ :: _ :: _) => carouselHtml (carouselId slug) title imgs

/-- Embeds `videoEmbedHtml` (lines 147-156). -/
def videoEmbedHtml (title : Str) (videoUrl : Option Str) : Str :=
  match youtubeIdFromUrl videoUrl with
  | some vid =>
    str "\n<div class=\"article-video ratio ratio-16x9\">\n  <iframe src=\"https://www.youtube.com/embed/" ++
      esc vid ++ str "\" title=\"" ++ esc title ++
      str "\" allow=\"accelerometer; autoplay; clipboard-write; encrypted-media; gyroscope; picture-in-picture\" allowfullscreen></iframe>\n</div>"
  | none => []

/-- The values substituted into the article template, in source order. -/
structure ArticleVals where
  title : Str
  metaDesc : Str
  keywords : Str
  url : Str
  image : Str
  date : Str
  dateModified : Str
  datePretty : Str
  content : Str
  author : Str
  categories : Str
  slug : Str
  imagesCarousel : Str
  videoEmbed : Str

/-- The fourteen placeholder tokens of the article template, in the order of
the chained `replaceAll` calls (lines 158-173). -/
def articleTokens : List Str :=
  [str "\x7b\x7bTITLE\x7d\x7d", str "\x7b\x7bMETA_DESC\x7d\x7d",
   str "\x7b\x7bKEYWORDS\x7d\x7d", str "\x7b\x7bURL\x7d\x7d",
   str "\x7b\x7bIMAGE\x7d\x7d", str "\x7b\x7bDATE\x7d\x7d",
   str "\x7b\x7bDATE_MODIFIED\x7d\x7d", str "\x7b\x7bDATE_PRETTY\x7d\x7d",
   str "\x7b\x7bCONTENT\x7d\x7d", str "\x7b\x7bAUTHOR\x7d\x7d",
   str "\x7b\x7bCATEGORIES\x7d\x7d", str "\x7b\x7bSLUG\x7d\x7d",
   str "\x7b\x7bIMAGES_CAROUSEL\x7d\x7d", str "\x7b\x7bVIDEO_EMBED\x7d\x7d"]

def articlePairs (v : ArticleVals) : List (Str × Str) :=
  articleTokens.zip
    [v.title, v.metaDesc, v.keywords, v.url, v.image, v.date, v.dateModified,
     v.datePretty, v.content, v.author, v.categories, v.slug,
     v.imagesCarousel, v.videoEmbed]

/-- Sequential substitution: one `replaceAll` per pair, in list order. -/
def substPairs (tpl : Str) : List (Str × Str) → Str
  | [] => tpl
  | (t, v) :: rest => substPairs (replaceAll t v tpl) rest

/-- The chained `.replaceAll` placeholder substitution of the article page. -/
def substituteArticle (tpl : Str) (v : ArticleVals) : Str :=
  substPairs tpl (articlePairs v)

/-- One article page (body of the `for` loop, lines 96-173). -/
def renderArticle (jsISO jsLoc : Str → Option Str) (now articleTpl : Str)
    (a : Article) : Str :=
  let slug := slugOf a
  let title := jsOr a.title (str "Article")
  let description := (collapseWs (jsOr a.content [])).take 150
  let created := formatISO jsISO now (jsOr a.createdAt (jsOr a.updatedAt now))
  let modified := formatISO jsISO now (jsOr a.updatedAt (jsOr a.createdAt now))
  let datePretty := prettyDateISO jsLoc (jsOr a.createdAt (jsOr a.updatedAt now))
  let canonicalUrl := baseUrl ++ urlPathDir slug
  let catNames := truthyNames a.categories
  let hcNames := truthyNames a.healthConditions
  let keywords := joinSep (str ", ") (setDedup (catNames ++ hcNames))
  let contentHtml := textToHtml (jsOr a.content [])
  let categoriesStr :=
    if catNames.isEmpty then str "General"
    else joinSep (str ", ") (catNames.map esc)
  substituteArticle articleTpl
    { title := esc title
      metaDesc := esc description
      keywords := esc keywords
      url := canonicalUrl
      image := siteImage
      date := created
      dateModified := modified
      datePretty := esc datePretty
      content := contentHtml
      author := esc (jsOr a.author (str "Yogastraa Team"))
      categories := esc categoriesStr
      slug := esc slug
      imagesCarousel := imagesCarouselHtml slug title a.images
      videoEmbed := videoEmbedHtml title a.videoUrl }

/-- The record pushed onto `articlePages` (line 184). -/
def mkPage (jsISO : Str → Option Str) (now : Str) (a : Article) : RenderedPage :=
  { slug := slugOf a
    title := jsOr a.title (str "Article")
    urlDir := urlPathDir (slugOf a)
    urlFile := urlPathFile (slugOf a)
    date := formatISO jsISO now (jsOr a.updatedAt (jsOr a.createdAt now))
    firstImage := match a.images with | some (i :: _) => i.url | _ => []
    foundData := a }

/-- One card of the articles list page (lines 191-215). -/
def articleRow (jsLoc : Str → Option Str) (articles : List Article)
    (p : RenderedPage) : Str :=
  let found := (articles.find? (fun a => slugOf a == p.slug)).getD emptyArticle
  let datePretty :=
    match found.createdAt with
    | some s => if s.isEmpty then [] else prettyDateISO jsLoc s
    | none => []
  let excerpt := excerptText (jsOr found.content []) 240
  let badges :=
    joinSep []
      ((found.categories.getD []).map fun c =>
        str "<span class=\"badge rounded-pill bg-secondary me-1 mb-1\">" ++
          escapeHtml c.name ++ str "</span>")
  let author := esc (jsOr found.author (str "Yogastraa Team"))
  let firstImg := match found.images with | some (i :: _) => i.url | _ => []
  let imgHtml :=
    if firstImg.isEmpty then []
    else
      str "<img src=\"" ++ esc firstImg ++ str "\" alt=\"" ++ esc p.title ++
        str "\" class=\"card-img-top\">"
  str "\n  <div class=\"col-12 col-md-6 col-lg-4\">\n    <div class=\"card h-100\">\n      " ++
    imgHtml ++
    str "\n      <div class=\"card-body d-flex flex-column\">\n        <h5 class=\"card-title\">" ++
    esc p.title ++
    str "</h5>\n        <p class=\"card-text text-muted small fst-italic\">By " ++
    author ++ str " · " ++ esc datePretty ++
    str "</p>\n        <p class=\"card-text flex-grow-1\">" ++ esc excerpt ++
    str "</p>\n        " ++
    (if badges.isEmpty then []
     else str "<div class=\"d-flex flex-wrap gap-1 mt-1\">" ++ badges ++ str "</div>") ++
    str "\n        <a href=\"" ++ p.urlDir ++
    str "\" class=\"btn btn-sm btn-primary mt-3\"><b>Read article</b></a>\n      </div>\n    </div>\n  </div>\n        "

/-- One row of the tips list page (lines 225-237). -/
def tipRow (jsLoc : Str → Option Str) (t : Tip) : Str :=
  let cat := jsOr (t.category.bind (fun c => c.name)) []
  let datePretty :=
    match t.createdAt with
    | some s => if s.isEmpty then [] else prettyDateISO jsLoc s
    | none => []
  str "\n  <div class=\"list-group-item d-flex justify-content-between align-items-start\">\n    <div>\n      <div class=\"mb-1\">" ++
    escapeHtml t.content ++ str "</div>\n      " ++
    (if cat.isEmpty then []
     else str "<small class=\"text-muted\">" ++ esc cat ++ str "</small>") ++
    str "\n    </div>\n    <small class=\"text-muted ms-3\">" ++ esc datePretty ++
    str "</small>\n  </div>"

def staticSitemapLocs : List Str :=
  [str "/", str "/contactUs/", str "/privacyPolicy/", str "/disclaimerPolicy/",
   str "/refundPolicy/", str "/termsConditions/", str "/knowledge/articles/",
   str "/knowledge/tips/"]

/-- The two sitemap entries contributed by each article page (lines 256-261). -/
def articleSitemapEntries (jsISO : Str → Option Str) (now : Str)
    (articles : List Article) (pages : List RenderedPage) : List (Str × Str) :=
  (pages.map fun p =>
    let found := articles.find? (fun a => slugOf a == p.slug)
    let lastmod :=
      match found with
      | some a =>
        match a.updatedAt with
        | some u => if u.isEmpty then now else formatISO jsISO now u
        | none => now
      | none => now
    [(p.urlDir, lastmod), (p.urlFile, lastmod)]).flatten

def sitemapUrls (jsISO : Str → Option Str) (now : Str)
    (articles : List Article) (pages : List RenderedPage) : List (Str × Str) :=
  staticSitemapLocs.map (fun l => (l, now)) ++
    articleSitemapEntries jsISO now articles pages

/-- The serialized sitemap document (lines 263-264). -/
def sitemapDoc (urls : List (Str × Str)) : Str :=
  str "<?xml version=\"1.0\" encoding=\"UTF-8\"?>\n<urlset xmlns=\"http://www.sitemaps.org/schemas/sitemap/0.9\">\n" ++
    joinSep (str "\n")
      (urls.map fun u =>
        str "<url><loc>" ++ baseUrl ++ u.1 ++ str "</loc><lastmod>" ++ u.2 ++
          str "</lastmod></url>") ++
    str "\n</urlset>\n"

def robotsTxt : Str :=
  str "User-agent: *\nAllow: /\nSitemap: " ++ baseUrl ++ str "/sitemap.xml\n"

def cnameFile : Str := str "yogastraa.com\n"

/-- Every file written by one run of `main`, as (path, contents) pairs, in
write order.  `now` is the run timestamp: every `new Date().toISOString()`
read during the run. -/
def pipelineWrites (jsISO jsLoc : Str → Option Str) (now : Str)
    (tpls : Templates) (articles : List Article) (tips : List Tip) :
    List (Str × Str) :=
  let pages := articles.map (mkPage jsISO now)
  let articleFiles :=
    (articles.map fun a =>
      let html := renderArticle jsISO jsLoc now tpls.articleTpl a
      [(articleIndexPath (slugOf a), html), (articleFlatPath (slugOf a), html)]).flatten
  let rows := joinSep (str "\n") (pages.map (articleRow jsLoc articles))
  let listHtml := replaceAll (str "\x7b\x7bARTICLE_ROWS\x7d\x7d") rows tpls.listTpl
  let tipRows := joinSep (str "\n") (tips.map (tipRow jsLoc))
  let tipsHtml := replaceAll (str "\x7b\x7bTIP_ROWS\x7d\x7d") tipRows tpls.tipsListTpl
  let smap := sitemapDoc (sitemapUrls jsISO now articles pages)
  articleFiles ++
    [(articlesIndexPath, listHtml), (articlesFlatPath, listHtml),
     (tipsIndexPath, tipsHtml), (tipsFlatPath, tipsHtml),
     (sitemapPath, smap), (robotsPath, robotsTxt), (cnamePath, cnameFile)]

/-- An HTTP response for a collection endpoint.  `body = none` models a JSON
body whose top level is not an array. -/
structure Response (α : Type) where
  ok : Bool
  status : Nat
  body : Option (List α)

/-- Embeds `fetchJson` (lines 31-35): throw on a non-success status. -/
def fetchJson (url : Str) (r : Response α) : Except Str (Option (List α)) :=
  if r.ok then Except.ok r.body
  else Except.error (str "Failed to fetch " ++ url ++ str ": " ++ natStr r.status)

/-- The double-fetch guard of lines 82-83:
`Array.isArray(await fetchJson(url)) ? await fetchJson(url) : []`.  The
second fetch of the same deterministic response returns the same body, so
the `getD` fallback on it is unreachable. -/
def fetchCollection (url : Str) (r : Response α) : Except Str (List α) := do
  let b1 ← fetchJson url r
  match b1 with
  | some _ => do
    let b2 ← fetchJson url r
    pure (b2.getD [])
  | none => pure []

/-- Minimal model of `JSON.stringify` on one string: quote and backslash are
escaped; the template names used here contain neither. -/
def jsonEscChar (c : Char) : Str :=
  if c = '"' then str "\\\"" else if c = '\\' then str "\\\\" else [c]

def jsonStr (s : Str) : Str := str "\"" ++ (s.map jsonEscChar).flatten ++ str "\""

/-- Embeds `JSON.stringify(nameList)` for an array of strings. -/
def jsonStringify (names : List Str) : Str :=
  str "[" ++ joinSep (str ",") (names.map jsonStr) ++ str "]"

def tplPath (name : Str) : Str := pathJoin (str "templates") name

/-- Embeds `loadTemplate` (lines 37-48): try each candidate in order against the
file system `fs`; the second component records which candidates were
actually consulted (read attempts), in order. -/
def loadTemplateGo (fs : Str → Option Str) (all : List Str) :
    List Str → Except Str Str × List Str
  | [] => (Except.error (str "None of the templates found: " ++ jsonStringify all), [])
  | n :: rest =>
    match fs (tplPath n) with
    | some txt => (Except.ok txt, [n])
    | none =>
      let r := loadTemplateGo fs all rest
      (r.1, n :: r.2)

def loadTemplate (fs : Str → Option Str) (names : List Str) :
    Except Str Str × List Str :=
  loadTemplateGo fs names names

/-- The whole run of `main` (lines 76-278) up to its file writes: fetch both
collections, load the three templates, then compute every write. -/
def runPipeline (jsISO jsLoc : Str → Option Str) (now : Str)
    (fsT : Str → Option Str) (aResp : Response Article) (tResp : Response Tip) :
    Except Str (List (Str × Str)) := do
  let articles ← fetchCollection articlesUrl aResp
  let tips ← fetchCollection tipsUrl tResp
  let articleTpl ← (loadTemplate fsT [str "article.html"]).1
  let listTpl ←
    (loadTemplate fsT
      [str "articles-list.html", str "article-list.html", str "articles-list.tpl.html"]).1
  let tipsListTpl ← (loadTemplate fsT [str "tips-list.html", str "tips-list.tpl.html"]).1
  pure (pipelineWrites jsISO jsLoc now ⟨articleTpl, listTpl, tipsListTpl⟩ articles tips)


/-- An article whose two timestamps are present, non-empty and parseable by
the date engine: the page renderer then never reads the run clock for it. -/
def articleDated (jsISO : Str → Option Str) (a : Article) : Prop :=
  ∃ c u, a.createdAt = some c ∧ c ≠ [] ∧ (jsISO c).isSome ∧
    a.updatedAt = some u ∧ u ≠ [] ∧ (jsISO u).isSome

/-! ## Concrete fixtures used by witnesses and counterexamples -/

/-- A date engine for which no string parses. -/
def jsISONone : Str → Option Str := fun _ => none

/-- A locale engine for which no string parses. -/
def jsLocNone : Str → Option Str := fun _ => none

/-- A date engine that accepts every string and echoes it as the ISO form. -/
def jsISOId : Str → Option Str := fun s => some s

def sampleArticleSlugged : Article :=
  { id := 3, slug := some (str "yoga-for-backs"), title := some (str "T"),
    content := none, author := none, createdAt := none, updatedAt := none,
    categories := none, healthConditions := none, images := none, videoUrl := none }

def sampleArticleAnon : Article :=
  { id := 7, slug := none, title := none, content := none, author := none,
    createdAt := none, updatedAt := none, categories := none,
    healthConditions := none, images := none, videoUrl := none }

/-- An article whose slug contains a `..` path segment, which `path.join`
normalizes away. -/
def cexSlugArticle : Article :=
  { id := 9, slug := some (str "x/../y"), title := none, content := none,
    author := none, createdAt := none, updatedAt := none, categories := none,
    healthConditions := none, images := none, videoUrl := none }

/-- An article with no timestamps at all: every date field falls back to the
run time. -/
def cexArticle : Article :=
  { id := 1, slug := none, title := none, content := none, author := none,
    createdAt := none, updatedAt := none, categories := none,
    healthConditions := none, images := none, videoUrl := none }

/-- An article with both timestamps present and parseable. -/
def datedArticle : Article :=
  { id := 2, slug := some (str "dated"), title := some (str "T"),
    content := some (str "body"), author := none,
    createdAt := some (str "2024-01-02"), updatedAt := some (str "2024-03-04"),
    categories := none, healthConditions := none, images := none, videoUrl := none }

/-- An article template that exposes the creation date. -/
def cexTpls : Templates :=
  { articleTpl := str "\x7b\x7bDATE\x7d\x7d", listTpl := [], tipsListTpl := [] }

def sampleVals : ArticleVals :=
  { title := str "t", metaDesc := str "d", keywords := str "k", url := str "u",
    image := str "i", date := str "c", dateModified := str "m",
    datePretty := str "p", content := str "x", author := str "a",
    categories := str "g", slug := str "s", imagesCarousel := str "ic",
    videoEmbed := str "v" }

def sampleImages : List Image := [{ url := str "u1" }, { url := str "u2" }]

/-- A template directory holding only `b.html`. -/
def fsOnlyB : Str → Option Str :=
  fun p => if p = tplPath (str "b.html") then some (str "BODY") else none

/-- A template directory holding every file, with fixed contents. -/
def fsAllTpl : Str → Option Str := fun _ => some (str "TPL")

/-- An empty template directory. -/
def fsNoTpl : Str → Option Str := fun _ => none

def respFailArticle : Response Article := { ok := false, status := 500, body := none }
def respOkEmptyArticle : Response Article := { ok := true, status := 200, body := some [] }
def respNotArrayArticle : Response Article := { ok := true, status := 200, body := none }
def respFailTip : Response Tip := { ok := false, status := 503, body := none }
def respNotArrayTip : Response Tip := { ok := true, status := 200, body := none }

/-! ## Characterisation of `replaceAll` with a one-character pattern -/

theorem replaceAllGo_single (c : Char) (r : Str) :
    ∀ (fuel : Nat) (s : Str), s.length ≤ fuel →
      replaceAllGo [c] r fuel s = (s.map fun x => if x = c then r else [x]).flatten := by
  intro fuel
  induction fuel with
  | zero =>
    intro s hs
    have : s = [] := List.eq_nil_of_length_eq_zero (Nat.le_zero.mp hs)
    subst this; rfl
  | succ f ih =>
    intro s hs
    cases s with
    | nil => rfl
    | cons x rest =>
      simp only [List.length_cons] at hs
      by_cases hx : c = x
      · subst hx
        rw [replaceAllGo, if_pos (by simp [List.isPrefixOf_cons₂_self, List.isPrefixOf])]
        rw [show ([c] : Str).length = 1 from rfl, List.drop_succ_cons, List.drop_zero,
          ih rest (by omega)]
        simp
      · rw [replaceAllGo, if_neg (by simp [List.isPrefixOf_cons₂, beq_iff_eq, hx]),
          ih rest (by omega)]
        simp [Ne.symm hx]

theorem replaceAll_single (c : Char) (r s : Str) :
    replaceAll [c] r s = (s.map fun x => if x = c then r else [x]).flatten := by
  unfold replaceAll
  rw [if_neg (by simp)]
  exact replaceAllGo_single c r s.length s (Nat.le_refl _)

theorem flatten_map_flatten_map (g f : Char → Str) (l : Str) :
    (((l.map f).flatten).map g).flatten =
      (l.map fun c => ((f c).map g).flatten).flatten := by
  induction l with
  | nil => rfl
  | cons c t ih => simp only [List.map_cons, List.flatten_cons, List.map_append,
      List.flatten_append, ih]

/-! ## `escapeHtml` rewrites characters pointwise -/

theorem esc_charwise (t : Str) : esc t = (t.map escChar).flatten := by
  show replaceAll (str "\"") (str "&quot;")
      (replaceAll (str ">") (str "&gt;")
        (replaceAll (str "<") (str "&lt;")
          (replaceAll (str "&") (str "&amp;") t))) = _
  rw [show str "&" = ['&'] from rfl, show str "<" = ['<'] from rfl,
    show str ">" = ['>'] from rfl, show str "\"" = ['"'] from rfl]
  rw [replaceAll_single, replaceAll_single, replaceAll_single, replaceAll_single]
  rw [flatten_map_flatten_map, flatten_map_flatten_map, flatten_map_flatten_map]
  congr 1
  refine List.map_congr_left fun c _ => ?_
  by_cases h1 : c = '&'
  · subst h1; decide
  by_cases h2 : c = '<'
  · subst h2; decide
  by_cases h3 : c = '>'
  · subst h3; decide
  by_cases h4 : c = '"'
  · subst h4; decide
  simp [escChar, h1, h2, h3, h4]

theorem escBr_charwise (p : Str) :
    replaceAll (str "\n") (str "<br/>") (esc p) = (p.map escBrChar).flatten := by
  rw [show str "\n" = ['\n'] from rfl, replaceAll_single, esc_charwise,
    flatten_map_flatten_map]
  congr 1
  refine List.map_congr_left fun c _ => ?_
  by_cases h1 : c = '&'
  · subst h1; decide
  by_cases h2 : c = '<'
  · subst h2; decide
  by_cases h3 : c = '>'
  · subst h3; decide
  by_cases h4 : c = '"'
  · subst h4; decide
  by_cases h5 : c = '\n'
  · subst h5; decide
  simp [escChar, escBrChar, h1, h2, h3, h4, h5]

/-! ## Safety of the generated markup -/

theorem Safe.append {a b : Str} (ha : Safe a) (hb : Safe b) : Safe (a ++ b) := by
  induction ha with
  | nil => simpa using hb
  | plain c s h1 h2 h3 h4 _ ih => exact Safe.plain c _ h1 h2 h3 h4 ih
  | tok t s ht _ ih =>
    rw [List.append_assoc]
    exact Safe.tok t _ ht ih

theorem safe_of_token {t : Str} (ht : t ∈ whitelistTokens) : Safe t := by
  have := Safe.tok t [] ht Safe.nil
  simpa using this

theorem safe_escBrChar (c : Char) : Safe (escBrChar c) := by
  by_cases h5 : c = '\n'
  · subst h5
    exact safe_of_token (t := str "<br/>") (by simp [whitelistTokens])
  rw [show escBrChar c = escChar c from by simp [escBrChar, h5]]
  by_cases h1 : c = '&'
  · subst h1; exact safe_of_token (by simp [whitelistTokens, escChar])
  by_cases h2 : c = '<'
  · subst h2; exact safe_of_token (by simp [whitelistTokens, escChar])
  by_cases h3 : c = '>'
  · subst h3; exact safe_of_token (by simp [whitelistTokens, escChar])
  by_cases h4 : c = '"'
  · subst h4; exact safe_of_token (by simp [whitelistTokens, escChar])
  rw [show escChar c = [c] from by simp [escChar, h1, h2, h3, h4]]
  exact Safe.plain c [] h2 h3 h4 h1 Safe.nil

theorem safe_flatten_map (f : Char → Str) (hf : ∀ c, Safe (f c)) (l : Str) :
    Safe ((l.map f).flatten) := by
  induction l with
  | nil => exact Safe.nil
  | cons c t ih => exact Safe.append (hf c) ih

theorem safe_joinSep (sep : Str) (hsep : Safe sep) :
    ∀ l : List Str, (∀ x ∈ l, Safe x) → Safe (joinSep sep l) := by
  intro l
  induction l with
  | nil => intro _; exact Safe.nil
  | cons x xs ih =>
    intro hl
    cases xs with
    | nil => simpa [joinSep] using hl x (by simp)
    | cons y ys =>
      rw [joinSep]
      exact Safe.append (Safe.append (hl x (by simp)) hsep)
        (ih fun z hz => hl z (by simp [hz]))

/-- C1.  For every article content string, each occurrence of `&`, `<`, `>`,
`"` is rewritten to its entity exactly in place (`escapeHtml` acts
pointwise on characters), and the output of the text-to-HTML stage contains
no markup beyond the whitelisted paragraph and line-break tags and the four
entities: it satisfies `Safe`. -/
theorem textToHtml_escapes_content :
    (∀ t : Str, esc t = (t.map escChar).flatten) ∧
      ∀ text : Str, Safe (textToHtml text) := by
  refine ⟨esc_charwise, fun text => ?_⟩
  unfold textToHtml
  by_cases h : text.isEmpty
  · rw [if_pos h]; exact Safe.nil
  · rw [if_neg h]
    apply safe_joinSep _ (Safe.plain '\n' [] (by decide) (by decide) (by decide)
      (by decide) Safe.nil)
    intro x hx
    simp only [List.mem_map] at hx
    obtain ⟨p, _, rfl⟩ := hx
    rw [escBr_charwise]
    have hbody : Safe ((p.map escBrChar).flatten) := safe_flatten_map _ safe_escBrChar p
    have hclose : Safe (str "</p>") := safe_of_token (by simp [whitelistTokens])
    have h2 : Safe ((p.map escBrChar).flatten ++ str "</p>") := Safe.append hbody hclose
    have h3 := Safe.tok (str "<p>") _ (by simp [whitelistTokens]) h2
    simpa [List.append_assoc] using h3

/-- C10.  `escapeHtml` maps null and undefined to the empty string and acts
pointwise: exactly `&`, `<`, `>`, `"` become entities, every other
character — the single quote included — passes through unchanged. -/
theorem escapeHtml_exact :
    escapeHtml none = [] ∧
    (∀ t : Str, escapeHtml (some t) = (t.map escChar).flatten) ∧
    (∀ c : Char, c ≠ '&' → c ≠ '<' → c ≠ '>' → c ≠ '"' → escChar c = [c]) ∧
    escChar '\'' = ['\''] := by
  refine ⟨rfl, esc_charwise, fun c h1 h2 h3 h4 => ?_, by decide⟩
  simp [escChar, h1, h2, h3, h4]

theorem escapeHtml_exact_witness :
    ('x' ≠ '&' ∧ 'x' ≠ '<' ∧ 'x' ≠ '>' ∧ 'x' ≠ '"') ∧ escChar 'x' = ['x'] :=
  ⟨by decide, escapeHtml_exact.2.2.1 'x' (by decide) (by decide) (by decide) (by decide)⟩

/-- C2.  On an unparseable date string the ISO formatter does fall back to
the current timestamp, but the display formatter renders the string
`Invalid Date` — `toLocaleDateString` does not throw on an invalid date, so
the catch branch returning the raw input is dead code — contradicting the
claimed fallback to the original raw string. -/
theorem prettyDateISO_invalid_not_raw :
    formatISO (fun _ => none) (str "2025-01-01T00:00:00.000Z") (str "not-a-date") =
      str "2025-01-01T00:00:00.000Z" ∧
    prettyDateISO (fun _ => none) (str "not-a-date") = str "Invalid Date" ∧
    prettyDateISO (fun _ => none) (str "not-a-date") ≠ str "not-a-date" :=
  ⟨rfl, rfl, by decide⟩

/-- C3 counterexample.  For the slug `a_b` the stripped slug-derived part of
the carousel identifier is `a_b` itself, which contains the non-alphanumeric
character `_`: the stripping does not remove every non-alphanumeric
character. -/
theorem carouselId_keeps_underscore :
    (carouselId (str "a_b")).drop 9 = str "a_b" ∧
    ¬ ∀ c ∈ (carouselId (str "a_b")).drop 9, c.isAlphanum = true := by
  constructor
  · decide
  · decide

/-- C3 amended.  The identifier is `carousel-` followed by the slug with
every character stripped that is not an ASCII letter, digit, underscore or
hyphen; underscores and hyphens are kept. -/
theorem carouselId_filters_word_class (slug : Str) :
    carouselId slug =
      str "carousel-" ++ slug.filter fun c => c.isAlphanum || c == '_' || c == '-' := by
  unfold carouselId
  congr 1
  refine List.filter_congr fun c _ => ?_
  rw [Bool.eq_iff_iff]
  simp only [isCidKeep, Char.isAlphanum, Char.isAlpha, Char.isDigit, Char.isUpper,
    Char.isLower, Bool.or_eq_true, Bool.and_eq_true, decide_eq_true_eq, beq_iff_eq,
    ge_iff_le, Char.le_def,
    show ('a').val = 97 from rfl, show ('z').val = 122 from rfl,
    show ('A').val = 65 from rfl, show ('Z').val = 90 from rfl,
    show ('0').val = 48 from rfl, show ('9').val = 57 from rfl]
  tauto

/-! ## C5: slug resolution and file paths -/

theorem isPrefixOf_eq_append : ∀ (p s : Str), p.isPrefixOf s = true ↔ ∃ t, s = p ++ t := by
  intro p
  induction p with
  | nil => intro s; simp [List.isPrefixOf]
  | cons c p' ih =>
    intro s
    cases s with
    | nil => simp [List.isPrefixOf]
    | cons d s' =>
      rw [List.isPrefixOf_cons₂, Bool.and_eq_true, beq_iff_eq]
      constructor
      · rintro ⟨rfl, hp⟩
        obtain ⟨t, rfl⟩ := (ih s').mp hp
        exact ⟨t, rfl⟩
      · rintro ⟨t, ht⟩
        injection ht with h1 h2
        subst h1
        exact ⟨rfl, (ih s').mpr ⟨t, h2⟩⟩

theorem hasSubstr_iff_occursIn (n : Str) : ∀ h : Str, hasSubstr n h ↔ occursIn n h = true := by
  intro h
  induction h with
  | nil =>
    constructor
    · rintro ⟨u, v, huv⟩
      have h0 : u ++ n ++ v = [] := huv.symm
      rw [List.append_eq_nil, List.append_eq_nil] at h0
      simp [occursIn, h0.1.2]
    · intro hocc
      have hn : n = [] := by simpa [occursIn, List.isEmpty_iff] using hocc
      subst hn
      exact ⟨[], [], rfl⟩
  | cons c rest ih =>
    rw [occursIn, Bool.or_eq_true]
    constructor
    · rintro ⟨u, v, huv⟩
      cases u with
      | nil =>
        left
        exact (isPrefixOf_eq_append n (c :: rest)).mpr ⟨v, by simpa using huv⟩
      | cons c' u' =>
        right
        apply ih.mp
        injection huv with h1 h2
        exact ⟨u', v, h2⟩
    · rintro (hpre | hocc)
      · obtain ⟨t, ht⟩ := (isPrefixOf_eq_append n (c :: rest)).mp hpre
        exact ⟨[], t, by simpa using ht⟩
      · obtain ⟨u, v, huv⟩ := ih.mpr hocc
        exact ⟨c :: u, v, by simp [huv]⟩

theorem segsGo_append_slash : ∀ (a cur b : Str),
    segsGo cur (a ++ '/' :: b) = segsGo cur a ++ segsGo [] b := by
  intro a
  induction a with
  | nil =>
    intro cur b
    cases cur with
    | nil => simp [segsGo]
    | cons x xs => simp [segsGo]
  | cons c a' ih =>
    intro cur b
    by_cases hc : c = '/'
    · subst hc
      cases cur with
      | nil => simpa [segsGo] using ih [] b
      | cons x xs => simpa [segsGo] using ih [] b
    · simpa [segsGo, hc] using ih (c :: cur) b

theorem segsGo_wf : ∀ (s cur : Str), (∀ c ∈ cur, c ≠ '/') →
    ∀ seg ∈ segsGo cur s, seg ≠ [] ∧ ∀ c ∈ seg, c ≠ '/' := by
  intro s
  induction s with
  | nil =>
    intro cur hcur seg hseg
    rw [segsGo] at hseg
    by_cases hc : cur.isEmpty
    · rw [if_pos hc] at hseg
      cases hseg
    · rw [if_neg hc] at hseg
      rw [List.mem_singleton] at hseg
      subst hseg
      refine ⟨?_, fun d hd => hcur d (List.mem_reverse.mp hd)⟩
      intro hnil
      rw [List.reverse_eq_nil_iff] at hnil
      exact hc (by simp [hnil])
  | cons c s' ih =>
    intro cur hcur seg hseg
    rw [segsGo] at hseg
    by_cases hc : c = '/'
    · rw [if_pos hc] at hseg
      by_cases hcur0 : cur.isEmpty
      · rw [if_pos hcur0] at hseg
        exact ih [] (by simp) seg hseg
      · rw [if_neg hcur0] at hseg
        rw [List.mem_cons] at hseg
        rcases hseg with heq | hseg
        · subst heq
          refine ⟨?_, fun d hd => hcur d (List.mem_reverse.mp hd)⟩
          intro hnil
          rw [List.reverse_eq_nil_iff] at hnil
          exact hcur0 (by simp [hnil])
        · exact ih [] (by simp) seg hseg
    · rw [if_neg hc] at hseg
      refine ih (c :: cur) ?_ seg hseg
      intro d hd
      rcases List.mem_cons.mp hd with rfl | hd
      · exact hc
      · exact hcur d hd

theorem segsGo_no_slash : ∀ (t cur : Str), (∀ c ∈ t, c ≠ '/') →
    segsGo cur t = if (cur.reverse ++ t).isEmpty then [] else [cur.reverse ++ t] := by
  intro t
  induction t with
  | nil =>
    intro cur _
    cases cur with
    | nil => simp [segsGo]
    | cons x xs => simp [segsGo]
  | cons c t' ih =>
    intro cur ht
    have hc : c ≠ '/' := ht c (by simp)
    have hrec := ih (c :: cur) fun d hd => ht d (by simp [hd])
    rw [segsGo, if_neg hc, hrec]
    simp [List.append_assoc]

theorem normSegsGo_no_dots (isAbs : Bool) : ∀ (l out : List Str),
    (∀ seg ∈ l, seg ≠ str "." ∧ seg ≠ str "..") →
    normSegsGo isAbs out l = out.reverse ++ l := by
  intro l
  induction l with
  | nil => intro out _; simp [normSegsGo]
  | cons seg rest ih =>
    intro out h
    obtain ⟨h1, h2⟩ := h seg (by simp)
    simp only [normSegsGo]
    rw [if_neg h1, if_neg h2, ih (seg :: out) fun q hq => h q (by simp [hq])]
    simp

theorem joinSep_cons_of_ne (sep x : Str) {rest : List Str} (h : rest ≠ []) :
    joinSep sep (x :: rest) = x ++ sep ++ joinSep sep rest := by
  cases rest with
  | nil => exact absurd rfl h
  | cons y ys => rfl

theorem joinSep_append_of_ne (sep : Str) : ∀ (l1 l2 : List Str), l1 ≠ [] → l2 ≠ [] →
    joinSep sep (l1 ++ l2) = joinSep sep l1 ++ sep ++ joinSep sep l2 := by
  intro l1
  induction l1 with
  | nil => intro l2 h _; exact absurd rfl h
  | cons x l1' ih =>
    intro l2 _ h2
    cases l1' with
    | nil => simp [joinSep_cons_of_ne sep x h2, joinSep]
    | cons y l1'' =>
      rw [List.cons_append,
        joinSep_cons_of_ne sep x (by simp : (y :: l1'') ++ l2 ≠ []),
        joinSep_cons_of_ne sep x (by simp : y :: l1'' ≠ []),
        ih l2 (by simp) h2]
      simp [List.append_assoc]

theorem joinSep_last_append : ∀ (l : List Str) (x t : Str),
    joinSep (str "/") (l ++ [x]) ++ t = joinSep (str "/") (l ++ [x ++ t]) := by
  intro l
  induction l with
  | nil => intro x t; simp [joinSep]
  | cons c l' ih =>
    intro x t
    rw [List.cons_append, List.cons_append,
      joinSep_cons_of_ne _ c (by simp : l' ++ [x] ≠ []),
      joinSep_cons_of_ne _ c (by simp : l' ++ [x ++ t] ≠ []),
      List.append_assoc, List.append_assoc, ih x t]
    simp [List.append_assoc]

theorem segsOf_renderSegs : ∀ segs : List Str,
    (∀ seg ∈ segs, seg ≠ [] ∧ ∀ c ∈ seg, c ≠ '/') →
    segsOf (renderSegs segs) = segs := by
  intro segs
  induction segs with
  | nil => intro _; rfl
  | cons x rest ih =>
    intro h
    obtain ⟨hx, hxc⟩ := h x (by simp)
    cases rest with
    | nil =>
      show segsGo [] (renderSegs [x]) = [x]
      rw [show renderSegs [x] = x from rfl, segsGo_no_slash x [] hxc]
      cases x with
      | nil => exact absurd rfl hx
      | cons c t => simp
    | cons y rest' =>
      have hrt : renderSegs (x :: y :: rest') = x ++ '/' :: renderSegs (y :: rest') := by
        rw [renderSegs, joinSep_cons_of_ne _ x (by simp)]
        simp [renderSegs, str, List.append_assoc]
      show segsGo [] (renderSegs (x :: y :: rest')) = x :: y :: rest'
      rw [hrt, segsGo_append_slash x [] (renderSegs (y :: rest')),
        segsGo_no_slash x [] hxc]
      rw [show segsGo [] (renderSegs (y :: rest')) = segsOf (renderSegs (y :: rest')) from rfl,
        ih fun q hq => h q (by simp [hq])]
      cases x with
      | nil => exact absurd rfl hx
      | cons c t => simp

theorem joinSep_slash_ne_nil {segs : List Str} (h : segs ≠ [])
    (hwf : ∀ seg ∈ segs, seg ≠ [] ∧ ∀ c ∈ seg, c ≠ '/') :
    joinSep (str "/") segs ≠ [] := by
  cases segs with
  | nil => exact absurd rfl h
  | cons x rest =>
    obtain ⟨hx, _⟩ := hwf x (by simp)
    cases rest with
    | nil => simpa [joinSep] using hx
    | cons y ys =>
      rw [joinSep_cons_of_ne _ x (by simp)]
      cases x with
      | nil => exact absurd rfl hx
      | cons c t => simp

theorem getLast?_renderSegs : ∀ segs : List Str, segs ≠ [] →
    (∀ seg ∈ segs, seg ≠ [] ∧ ∀ c ∈ seg, c ≠ '/') →
    ∀ c, (renderSegs segs).getLast? = some c → c ≠ '/' := by
  intro segs
  induction segs with
  | nil => intro h; exact absurd rfl h
  | cons x rest ih =>
    intro _ hwf c hc
    obtain ⟨hx, hxc⟩ := hwf x (by simp)
    cases rest with
    | nil =>
      exact hxc c (List.mem_of_getLast?_eq_some hc)
    | cons y rest' =>
      rw [renderSegs, joinSep_cons_of_ne _ x (by simp), List.append_assoc] at hc
      have hne : joinSep (str "/") (y :: rest') ≠ [] :=
        joinSep_slash_ne_nil (by simp) fun q hq => hwf q (by simp [hq])
      have hsome : (joinSep (str "/") (y :: rest')).getLast?.isSome := by
        cases hjl : (joinSep (str "/") (y :: rest')).getLast? with
        | none =>
          rw [List.getLast?_eq_none_iff] at hjl
          exact absurd hjl hne
        | some d => rfl
      obtain ⟨d, hd⟩ := Option.isSome_iff_exists.mp hsome
      rw [List.getLast?_append, List.getLast?_append, hd] at hc
      simp only [Option.or] at hc
      rw [Option.some.injEq] at hc
      subst hc
      exact ih (by simp) (fun q hq => hwf q (by simp [hq])) d hd

theorem head?_renderSegs : ∀ segs : List Str, segs ≠ [] →
    (∀ seg ∈ segs, seg ≠ [] ∧ ∀ c ∈ seg, c ≠ '/') →
    ∀ c, (renderSegs segs).head? = some c → c ≠ '/' := by
  intro segs hne hwf c hc
  cases segs with
  | nil => exact absurd rfl hne
  | cons x rest =>
    obtain ⟨hx, hxc⟩ := hwf x (by simp)
    apply hxc c
    cases x with
    | nil => exact absurd rfl hx
    | cons d t =>
      cases rest with
      | nil =>
        rw [show renderSegs [d :: t] = d :: t from rfl, List.head?_cons,
          Option.some.injEq] at hc
        subst hc
        simp
      | cons y rest' =>
        rw [renderSegs, joinSep_cons_of_ne _ _ (by simp), List.cons_append,
          List.cons_append, List.head?_cons, Option.some.injEq] at hc
        subst hc
        simp

theorem cleanPath_parts {p : Str} (h : cleanPath p = true) :
    segsOf p ≠ [] ∧ (∀ seg ∈ segsOf p, seg ≠ str "." ∧ seg ≠ str "..") ∧
      renderSegs (segsOf p) = p := by
  rw [cleanPath, Bool.and_eq_true, Bool.and_eq_true] at h
  obtain ⟨⟨h1, h2⟩, h3⟩ := h
  refine ⟨?_, ?_, beq_iff_eq.mp h3⟩
  · simpa [List.isEmpty_iff] using h1
  · intro seg hs
    have hseg := List.all_eq_true.mp h2 seg hs
    rw [Bool.and_eq_true, bne_iff_ne, bne_iff_ne] at hseg
    exact hseg

theorem segsOf_wf (p : Str) :
    ∀ seg ∈ segsOf p, seg ≠ [] ∧ ∀ c ∈ seg, c ≠ '/' :=
  segsGo_wf p [] (by simp)

theorem cleanPath_ne_nil {p : Str} (h : cleanPath p = true) : p ≠ [] := by
  intro hp
  subst hp
  obtain ⟨h1, _, _⟩ := cleanPath_parts h
  exact h1 rfl

theorem notTrailing_of_clean {p : Str} (h : cleanPath p = true) :
    hasTrailingSlash p = false := by
  obtain ⟨h1, _, h3⟩ := cleanPath_parts h
  rw [hasTrailingSlash]
  cases hl : p.getLast? with
  | none => rfl
  | some c =>
    have hc : c ≠ '/' := by
      apply getLast?_renderSegs (segsOf p) h1 (segsOf_wf p) c
      rw [h3]; exact hl
    simpa [beq_eq_false_iff_ne] using hc

theorem notAbs_of_clean {p : Str} (h : cleanPath p = true) : isAbsPath p = false := by
  obtain ⟨h1, _, h3⟩ := cleanPath_parts h
  rw [isAbsPath]
  cases hl : p.head? with
  | none => rfl
  | some c =>
    have hc : c ≠ '/' := by
      apply head?_renderSegs (segsOf p) h1 (segsOf_wf p) c
      rw [h3]; exact hl
    simpa [beq_eq_false_iff_ne] using hc

theorem segsOf_append_mid (a b : Str) :
    segsOf (a ++ str "/" ++ b) = segsOf a ++ segsOf b := by
  rw [show a ++ str "/" ++ b = a ++ '/' :: b from by simp [str, List.append_assoc]]
  exact segsGo_append_slash a [] b

theorem normalizePath_clean {p : Str} (h : cleanPath p = true) :
    normalizePath p = p := by
  obtain ⟨h1, h2, h3⟩ := cleanPath_parts h
  rw [normalizePath, notAbs_of_clean h, notTrailing_of_clean h]
  simp only [Bool.false_eq_true, if_false]
  rw [normSegsGo_no_dots false (segsOf p) [] h2]
  simp only [List.reverse_nil, List.nil_append, h3]
  rw [if_neg (by simpa [List.isEmpty_iff] using cleanPath_ne_nil h)]
  simp

theorem cleanPath_append {a b : Str} (ha : cleanPath a = true)
    (hb : cleanPath b = true) : cleanPath (a ++ str "/" ++ b) = true := by
  obtain ⟨ha1, ha2, ha3⟩ := cleanPath_parts ha
  obtain ⟨hb1, hb2, hb3⟩ := cleanPath_parts hb
  rw [cleanPath, segsOf_append_mid, Bool.and_eq_true, Bool.and_eq_true]
  refine ⟨⟨?_, ?_⟩, ?_⟩
  · cases hsa : segsOf a with
    | nil => exact absurd hsa ha1
    | cons x xs => simp
  · rw [List.all_eq_true]
    intro seg hs
    rcases List.mem_append.mp hs with hs | hs
    · obtain ⟨hd1, hd2⟩ := ha2 seg hs
      simp [bne_iff_ne, hd1, hd2]
    · obtain ⟨hd1, hd2⟩ := hb2 seg hs
      simp [bne_iff_ne, hd1, hd2]
  · rw [renderSegs, joinSep_append_of_ne _ _ _ ha1 hb1,
      show joinSep (str "/") (segsOf a) = renderSegs (segsOf a) from rfl,
      show joinSep (str "/") (segsOf b) = renderSegs (segsOf b) from rfl, ha3, hb3]
    simp

theorem pathJoin_clean {a b : Str} (ha : cleanPath a = true)
    (hb : cleanPath b = true) : pathJoin a b = a ++ str "/" ++ b := by
  rw [pathJoin,
    if_neg (by simpa [List.isEmpty_iff] using cleanPath_ne_nil ha),
    if_neg (by simpa [List.isEmpty_iff] using cleanPath_ne_nil hb)]
  exact normalizePath_clean (cleanPath_append ha hb)

theorem cleanPath_append_html {s : Str} (h : cleanPath s = true) :
    cleanPath (s ++ str ".html") = true := by
  obtain ⟨h1, h2, h3⟩ := cleanPath_parts h
  rcases List.eq_nil_or_concat (segsOf s) with hnil | ⟨l, x, hlx⟩
  · exact absurd hnil h1
  rw [List.concat_eq_append] at hlx
  have hwf := segsOf_wf s
  have hwf' : ∀ seg ∈ l ++ [x ++ str ".html"], seg ≠ [] ∧ ∀ c ∈ seg, c ≠ '/' := by
    intro seg hs
    rcases List.mem_append.mp hs with hs | hs
    · exact hwf seg (by rw [hlx]; exact List.mem_append_left _ hs)
    · rw [List.mem_singleton] at hs
      subst hs
      obtain ⟨hx1, hx2⟩ := hwf x (by rw [hlx]; exact List.mem_append_right _ (by simp))
      have hhtml : ∀ c ∈ str ".html", c ≠ '/' := by decide
      refine ⟨by simp [hx1], ?_⟩
      intro c hc
      rcases List.mem_append.mp hc with hc | hc
      · exact hx2 c hc
      · exact hhtml c hc
  have hext : s ++ str ".html" = renderSegs (l ++ [x ++ str ".html"]) := by
    conv_lhs => rw [← h3, hlx]
    rw [renderSegs, renderSegs, joinSep_last_append]
  rw [cleanPath, hext, segsOf_renderSegs _ hwf', Bool.and_eq_true, Bool.and_eq_true]
  refine ⟨⟨by simp, ?_⟩, by simp⟩
  rw [List.all_eq_true]
  intro seg hs
  rcases List.mem_append.mp hs with hs | hs
  · have hmem : seg ∈ segsOf s := by rw [hlx]; exact List.mem_append_left _ hs
    obtain ⟨hd1, hd2⟩ := h2 seg hmem
    simp [bne_iff_ne, hd1, hd2]
  · rw [List.mem_singleton] at hs
    subst hs
    rw [Bool.and_eq_true, bne_iff_ne, bne_iff_ne]
    constructor
    · intro heq
      have hlen := congrArg List.length heq
      simp only [List.length_append] at hlen
      rw [show (str ".html").length = 5 from rfl,
        show (str ".").length = 1 from rfl] at hlen
      omega
    · intro heq
      have hlen := congrArg List.length heq
      simp only [List.length_append] at hlen
      rw [show (str ".html").length = 5 from rfl,
        show (str "..").length = 2 from rfl] at hlen
      omega

/-- C5 counterexample.  For the present, non-empty slug `x/../y` the two
written file paths are normalized by `path.join` and do not contain the slug
verbatim, refuting the universally quantified claim. -/
theorem slug_not_verbatim_after_join :
    slugOf cexSlugArticle = str "x/../y" ∧
    articleIndexPath (str "x/../y") = str "public/knowledge/articles/y/index.html" ∧
    articleFlatPath (str "x/../y") = str "public/knowledge/articles/y.html" ∧
    ¬ hasSubstr (str "x/../y") (articleIndexPath (str "x/../y")) ∧
    ¬ hasSubstr (str "x/../y") (articleFlatPath (str "x/../y")) := by
  refine ⟨by decide, by decide, by decide, ?_, ?_⟩
  · intro h
    have := (hasSubstr_iff_occursIn _ _).mp h
    exact absurd this (by decide)
  · intro h
    have := (hasSubstr_iff_occursIn _ _).mp h
    exact absurd this (by decide)

/-- C5 amended.  An explicit non-empty slug is used verbatim as the derived
slug and appears verbatim in both page URL paths; it also appears verbatim
in both written file paths whenever path normalization leaves it untouched
(no `.` or `..` segments and no duplicate, leading or trailing separators).
Without a slug (or with an empty one) the derived slug is `article-` followed
by the identifier. -/
theorem slug_resolution :
    (∀ (a : Article) (s : Str), a.slug = some s → s ≠ [] →
      slugOf a = s ∧
      hasSubstr s (urlPathDir (slugOf a)) ∧
      hasSubstr s (urlPathFile (slugOf a)) ∧
      (cleanPath s = true →
        hasSubstr s (articleIndexPath (slugOf a)) ∧
        hasSubstr s (articleFlatPath (slugOf a)))) ∧
    ∀ a : Article, a.slug = none ∨ a.slug = some [] →
      slugOf a = str "article-" ++ natStr a.id := by
  constructor
  · intro a s ha hne
    have hempty : s.isEmpty = false := by
      cases s with
      | nil => exact absurd rfl hne
      | cons c t => rfl
    have hslug : slugOf a = s := by simp [slugOf, jsOr, ha, hempty]
    rw [hslug]
    refine ⟨rfl, ⟨str "/knowledge/articles/", str "/", by
        simp [urlPathDir, List.append_assoc]⟩,
      ⟨str "/knowledge/articles/", str ".html", by
        simp [urlPathFile, List.append_assoc]⟩, ?_⟩
    intro hclean
    have hD : cleanPath ARTICLES_DIR = true := by decide
    have hIdx : cleanPath (str "index.html") = true := by decide
    have h1 : pathJoin ARTICLES_DIR s = ARTICLES_DIR ++ str "/" ++ s :=
      pathJoin_clean hD hclean
    have h2 : cleanPath (ARTICLES_DIR ++ str "/" ++ s) = true :=
      cleanPath_append hD hclean
    constructor
    · rw [articleIndexPath, h1, pathJoin_clean h2 hIdx]
      exact ⟨ARTICLES_DIR ++ str "/", str "/" ++ str "index.html", by
        simp [List.append_assoc]⟩
    · rw [articleFlatPath, pathJoin_clean hD (cleanPath_append_html hclean)]
      exact ⟨ARTICLES_DIR ++ str "/", str ".html", by simp [List.append_assoc]⟩
  · intro a ha
    rcases ha with ha | ha <;> simp [slugOf, jsOr, ha]

theorem slug_resolution_witness :
    (sampleArticleSlugged.slug = some (str "yoga-for-backs") ∧
      str "yoga-for-backs" ≠ ([] : Str) ∧
      cleanPath (str "yoga-for-backs") = true ∧
      slugOf sampleArticleSlugged = str "yoga-for-backs" ∧
      hasSubstr (str "yoga-for-backs") (urlPathDir (slugOf sampleArticleSlugged)) ∧
      hasSubstr (str "yoga-for-backs") (articleIndexPath (slugOf sampleArticleSlugged)) ∧
      hasSubstr (str "yoga-for-backs") (articleFlatPath (slugOf sampleArticleSlugged))) ∧
    (sampleArticleAnon.slug = none ∧
      slugOf sampleArticleAnon = str "article-" ++ natStr sampleArticleAnon.id) :=
  ⟨⟨rfl, by decide, by decide,
    (slug_resolution.1 sampleArticleSlugged (str "yoga-for-backs") rfl (by decide)).1,
    (slug_resolution.1 sampleArticleSlugged (str "yoga-for-backs") rfl (by decide)).2.1,
    ((slug_resolution.1 sampleArticleSlugged (str "yoga-for-backs") rfl
        (by decide)).2.2.2 (by decide)).1,
    ((slug_resolution.1 sampleArticleSlugged (str "yoga-for-backs") rfl
        (by decide)).2.2.2 (by decide)).2⟩,
   rfl, slug_resolution.2 sampleArticleAnon (Or.inl rfl)⟩

/-! ## C6: templates without recognised placeholders pass through -/

theorem occursIn_nil_pat (s : Str) : occursIn [] s = true := by
  induction s with
  | nil => rfl
  | cons c rest ih => simp [occursIn, List.isPrefixOf]

theorem replaceAllGo_no_occur (pat repl : Str) :
    ∀ (fuel : Nat) (s : Str), s.length ≤ fuel → occursIn pat s = false →
      replaceAllGo pat repl fuel s = s := by
  intro fuel
  induction fuel with
  | zero =>
    intro s hs _
    have : s = [] := List.eq_nil_of_length_eq_zero (Nat.le_zero.mp hs)
    subst this; rfl
  | succ f ih =>
    intro s hs hocc
    cases s with
    | nil => rfl
    | cons c rest =>
      simp only [occursIn, Bool.or_eq_false_iff] at hocc
      rw [replaceAllGo, if_neg (by simp [hocc.1])]
      simp only [List.length_cons] at hs
      rw [ih rest (by omega) hocc.2]

theorem replaceAll_no_occur {pat : Str} (repl : Str) {s : Str}
    (h : occursIn pat s = false) : replaceAll pat repl s = s := by
  have hpat : pat ≠ [] := by
    intro hp
    rw [hp, occursIn_nil_pat] at h
    exact Bool.true_eq_false.mp h
  unfold replaceAll
  rw [if_neg (by simpa [List.isEmpty_iff] using hpat)]
  exact replaceAllGo_no_occur pat repl s.length s (Nat.le_refl _) h

theorem substPairs_no_occur (tpl : Str) :
    ∀ pairs : List (Str × Str), (∀ pr ∈ pairs, occursIn pr.1 tpl = false) →
      substPairs tpl pairs = tpl := by
  intro pairs
  induction pairs with
  | nil => intro _; rfl
  | cons pr rest ih =>
    intro h
    cases pr with
    | mk t v =>
      rw [substPairs, replaceAll_no_occur v (h (t, v) (by simp))]
      exact ih fun q hq => h q (by simp [hq])

/-- C6.  A template in which none of the fourteen recognised placeholder
tokens occurs — unrecognised placeholder-shaped tokens included — is
returned by the substitution stage byte-for-byte unchanged, with no error. -/
theorem substitution_without_placeholders (tpl : Str) (v : ArticleVals)
    (h : ∀ tok ∈ articleTokens, occursIn tok tpl = false) :
    substituteArticle tpl v = tpl := by
  unfold substituteArticle
  apply substPairs_no_occur
  intro pr hpr
  exact h pr.1 (List.of_mem_zip (by rwa [← @Prod.mk.eta _ _ pr] at hpr)).1

theorem substitution_without_placeholders_witness :
    (∀ tok ∈ articleTokens,
      occursIn tok (str "<html>\x7b\x7bUNKNOWN\x7d\x7d</html>") = false) ∧
    substituteArticle (str "<html>\x7b\x7bUNKNOWN\x7d\x7d</html>") sampleVals =
      str "<html>\x7b\x7bUNKNOWN\x7d\x7d</html>" :=
  ⟨by decide, substitution_without_placeholders _ sampleVals (by decide)⟩

/-! ## C7: carousel counts and the active slide -/

theorem mapIdxGo_length (f : Nat → α → β) :
    ∀ (i : Nat) (l : List α), (mapIdxGo f i l).length = l.length := by
  intro i l
  induction l generalizing i with
  | nil => rfl
  | cons x xs ih => simp [mapIdxGo, ih]

theorem mapIdxGo_getElem (f : Nat → α → β) :
    ∀ (l : List α) (i j : Nat), (mapIdxGo f i l)[j]? = l[j]?.map (f (i + j)) := by
  intro l
  induction l with
  | nil => intro i j; simp [mapIdxGo]
  | cons x xs ih =>
    intro i j
    cases j with
    | zero => simp [mapIdxGo]
    | succ j' =>
      have harith : i + 1 + j' = i + (j' + 1) := by omega
      simp only [mapIdxGo, List.getElem?_cons_succ, ih (i + 1) j', harith]

theorem range_countP_zero :
    ∀ n : Nat, 1 ≤ n → (List.range n).countP (fun i => i == 0) = 1 := by
  intro n
  induction n with
  | zero => intro h; omega
  | succ m ih =>
    intro _
    by_cases hm : m = 0
    · subst hm; decide
    · rw [List.range_succ, List.countP_append, ih (by omega)]
      simp [List.countP_cons, hm]

/-- C7.  For two or more images the carousel has exactly one indicator and
one slide per image, the i-th built from the i-th image, and the active
marking is attached exactly when the index is `0` — so exactly one index of
the rendered range carries it. -/
theorem carousel_structure (slug title : Str) (imgs : List Image)
    (h2 : 2 ≤ imgs.length) :
    (carouselIndicators (carouselId slug) imgs).length = imgs.length ∧
    (carouselItems title imgs).length = imgs.length ∧
    (∀ (i : Nat) (im : Image), imgs[i]? = some im →
      (carouselIndicators (carouselId slug) imgs)[i]? =
        some (indicatorHtml (carouselId slug) i (i == 0)) ∧
      (carouselItems title imgs)[i]? = some (itemHtml title im (i == 0))) ∧
    (List.range imgs.length).countP (fun i => i == 0) = 1 := by
  refine ⟨mapIdxGo_length _ _ _, mapIdxGo_length _ _ _, ?_,
    range_countP_zero _ (by omega)⟩
  intro i im him
  unfold carouselIndicators carouselItems mapIdxL
  rw [mapIdxGo_getElem, mapIdxGo_getElem, him]
  simp

theorem carousel_structure_witness :
    2 ≤ sampleImages.length ∧
    ((carouselIndicators (carouselId (str "pose")) sampleImages).length =
        sampleImages.length ∧
      (carouselItems (str "T") sampleImages).length = sampleImages.length ∧
      (∀ (i : Nat) (im : Image), sampleImages[i]? = some im →
        (carouselIndicators (carouselId (str "pose")) sampleImages)[i]? =
          some (indicatorHtml (carouselId (str "pose")) i (i == 0)) ∧
        (carouselItems (str "T") sampleImages)[i]? =
          some (itemHtml (str "T") im (i == 0))) ∧
      (List.range sampleImages.length).countP (fun i => i == 0) = 1) :=
  ⟨by decide, carousel_structure (str "pose") (str "T") sampleImages (by decide)⟩

/-! ## C8: the template loader takes the first candidate found -/

theorem hasSubstr_trans {x y z : Str} (h1 : hasSubstr x y) (h2 : hasSubstr y z) :
    hasSubstr x z := by
  obtain ⟨u1, v1, rfl⟩ := h1
  obtain ⟨u2, v2, rfl⟩ := h2
  exact ⟨u2 ++ u1, v1 ++ v2, by simp [List.append_assoc]⟩

theorem hasSubstr_extend {x h : Str} (hx : hasSubstr x h) (pre suf : Str) :
    hasSubstr x (pre ++ h ++ suf) :=
  hasSubstr_trans hx ⟨pre, suf, rfl⟩

theorem mem_joinSep_substr (sep : Str) :
    ∀ (l : List Str) (x : Str), x ∈ l → hasSubstr x (joinSep sep l) := by
  intro l
  induction l with
  | nil => intro x hx; cases hx
  | cons y ys ih =>
    intro x hx
    cases ys with
    | nil =>
      have : x = y := by simpa using hx
      subst this
      exact ⟨[], [], by simp [joinSep]⟩
    | cons z zs =>
      rcases List.mem_cons.mp hx with rfl | hx2
      · exact ⟨[], sep ++ joinSep sep (z :: zs), by simp [joinSep, List.append_assoc]⟩
      · obtain ⟨u, v, huv⟩ := ih x hx2
        exact ⟨y ++ sep ++ u, v, by simp [joinSep, huv, List.append_assoc]⟩

theorem loadTemplateGo_found (fs : Str → Option Str) (all : List Str) :
    ∀ (pre : List Str) (post : List Str) (n txt : Str),
      (∀ m ∈ pre, fs (tplPath m) = none) → fs (tplPath n) = some txt →
      loadTemplateGo fs all (pre ++ n :: post) = (Except.ok txt, pre ++ [n]) := by
  intro pre
  induction pre with
  | nil =>
    intro post n txt _ hn
    simp [loadTemplateGo, hn]
  | cons m pre' ih =>
    intro post n txt hpre hn
    have hm : fs (tplPath m) = none := hpre m (by simp)
    have hrec := ih post n txt (fun q hq => hpre q (by simp [hq])) hn
    simp only [List.cons_append, loadTemplateGo, hm, List.append_eq, hrec]

theorem loadTemplateGo_none (fs : Str → Option Str) (all : List Str) :
    ∀ names : List Str, (∀ m ∈ names, fs (tplPath m) = none) →
      loadTemplateGo fs all names =
        (Except.error (str "None of the templates found: " ++ jsonStringify all), names) := by
  intro names
  induction names with
  | nil => intro _; rfl
  | cons m rest ih =>
    intro h
    have hm : fs (tplPath m) = none := h m (by simp)
    simp only [loadTemplateGo, hm]
    rw [ih fun q hq => h q (by simp [hq])]

/-- C8.  The loader returns the contents of the first candidate present on
disk, consulting exactly the candidates up to and including it (later ones
are untouched); when none exists it fails with an error whose message embeds
every attempted candidate name (in its JSON-escaped form). -/
theorem loadTemplate_contract (fs : Str → Option Str) :
    (∀ (pre post : List Str) (n txt : Str),
      (∀ m ∈ pre, fs (tplPath m) = none) → fs (tplPath n) = some txt →
      loadTemplate fs (pre ++ n :: post) = (Except.ok txt, pre ++ [n])) ∧
    ∀ names : List Str, (∀ m ∈ names, fs (tplPath m) = none) →
      loadTemplate fs names =
        (Except.error (str "None of the templates found: " ++ jsonStringify names),
          names) ∧
      ∀ m ∈ names,
        hasSubstr ((m.map jsonEscChar).flatten)
          (str "None of the templates found: " ++ jsonStringify names) := by
  constructor
  · intro pre post n txt hpre hn
    exact loadTemplateGo_found fs _ pre post n txt hpre hn
  · intro names h
    refine ⟨loadTemplateGo_none fs names names h, fun m hm => ?_⟩
    have h1 : hasSubstr ((m.map jsonEscChar).flatten) (jsonStr m) :=
      ⟨str "\"", str "\"", by simp [jsonStr]⟩
    have h2 : hasSubstr (jsonStr m) (joinSep (str ",") (names.map jsonStr)) :=
      mem_joinSep_substr _ _ _ (List.mem_map_of_mem jsonStr hm)
    have h3 : hasSubstr ((m.map jsonEscChar).flatten) (jsonStringify names) := by
      have := hasSubstr_extend (hasSubstr_trans h1 h2) (str "[") (str "]")
      simpa [jsonStringify, List.append_assoc] using this
    obtain ⟨u, v, huv⟩ := h3
    exact ⟨str "None of the templates found: " ++ u, v, by
      simp [huv, List.append_assoc]⟩

theorem loadTemplate_contract_witness :
    ((∀ m ∈ [str "a.html"], fsOnlyB (tplPath m) = none) ∧
      fsOnlyB (tplPath (str "b.html")) = some (str "BODY") ∧
      loadTemplate fsOnlyB [str "a.html", str "b.html", str "c.html"] =
        (Except.ok (str "BODY"), [str "a.html", str "b.html"])) ∧
    ((∀ m ∈ [str "x.html"], fsNoTpl (tplPath m) = none) ∧
      loadTemplate fsNoTpl [str "x.html"] =
        (Except.error (str "None of the templates found: " ++
          jsonStringify [str "x.html"]), [str "x.html"])) :=
  ⟨⟨by decide, by decide,
    (loadTemplate_contract fsOnlyB).1 [str "a.html"] [str "c.html"]
      (str "b.html") (str "BODY") (by decide) (by decide)⟩,
   ⟨by decide, ((loadTemplate_contract fsNoTpl).2 [str "x.html"] (by decide)).1⟩⟩

/-! ## C9: fetch failures abort, non-array bodies become empty lists -/

/-- C9.  A non-success HTTP status on either collection makes the whole run
fail with the fetch error; a successful response whose body is not an array
yields the empty collection instead of failing. -/
theorem fetch_error_contract (jsISO jsLoc : Str → Option Str) (now : Str)
    (fsT : Str → Option Str) (aResp : Response Article) (tResp : Response Tip) :
    (aResp.ok = false →
      runPipeline jsISO jsLoc now fsT aResp tResp =
        Except.error (str "Failed to fetch " ++ articlesUrl ++ str ": " ++
          natStr aResp.status)) ∧
    (aResp.ok = true → tResp.ok = false →
      runPipeline jsISO jsLoc now fsT aResp tResp =
        Except.error (str "Failed to fetch " ++ tipsUrl ++ str ": " ++
          natStr tResp.status)) ∧
    (∀ (url : Str) (r : Response Article), r.ok = true → r.body = none →
      fetchCollection url r = Except.ok []) ∧
    ∀ (url : Str) (r : Response Tip), r.ok = true → r.body = none →
      fetchCollection url r = Except.ok [] := by
  obtain ⟨aok, ast, abd⟩ := aResp
  obtain ⟨tok, tst, tbd⟩ := tResp
  refine ⟨?_, ?_, ?_, ?_⟩
  · intro h
    cases aok with
    | false => rfl
    | true => simp at h
  · intro ha ht
    cases aok with
    | true =>
      cases tok with
      | false => cases abd with | none => rfl | some l => rfl
      | true => simp at ht
    | false => simp at ha
  · intro url r h hb
    obtain ⟨rok, rst, rbd⟩ := r
    simp only at h hb
    subst h; subst hb
    rfl
  · intro url r h hb
    obtain ⟨rok, rst, rbd⟩ := r
    simp only at h hb
    subst h; subst hb
    rfl

theorem fetch_error_contract_witness :
    (respFailArticle.ok = false ∧
      runPipeline jsISONone jsLocNone (str "NOW") fsAllTpl respFailArticle respFailTip =
        Except.error (str "Failed to fetch " ++ articlesUrl ++ str ": " ++
          natStr respFailArticle.status)) ∧
    (respNotArrayArticle.ok = true ∧ respNotArrayArticle.body = none ∧
      fetchCollection articlesUrl respNotArrayArticle = Except.ok []) :=
  ⟨⟨rfl,
    (fetch_error_contract jsISONone jsLocNone (str "NOW") fsAllTpl respFailArticle
      respFailTip).1 rfl⟩,
   ⟨rfl, rfl,
    (fetch_error_contract jsISONone jsLocNone (str "NOW") fsAllTpl respFailArticle
      respFailTip).2.2.1 articlesUrl respNotArrayArticle rfl rfl⟩⟩

/-! ## C4: run-to-run stability of the outputs -/

/-- C4 counterexample.  Two runs over identical API data (one article with
no timestamps) and identical templates produce different bytes in the
article page itself — a page-renderer output, not an artifact-writer
field — because the date placeholders fall back to the run clock. -/
theorem pipeline_run_time_leak :
    (pipelineWrites jsISONone jsLocNone (str "T1") cexTpls [cexArticle] []).head? =
      some (articleIndexPath (str "article-1"), str "T1") ∧
    (pipelineWrites jsISONone jsLocNone (str "T2") cexTpls [cexArticle] []).head? =
      some (articleIndexPath (str "article-1"), str "T2") ∧
    str "T1" ≠ str "T2" ∧
    articleIndexPath (str "article-1") ≠ sitemapPath :=
  ⟨by decide, by decide, by decide, by decide⟩

theorem jsOr_some {s : Str} (h : s ≠ []) (d : Str) : jsOr (some s) d = s := by
  cases s with
  | nil => exact absurd rfl h
  | cons c t => rfl

theorem isEmpty_false_of_ne {s : Str} (h : s ≠ []) : s.isEmpty = false := by
  cases s with
  | nil => exact absurd rfl h
  | cons c t => rfl

theorem renderArticle_now_indep (jsISO jsLoc : Str → Option Str) (tpl : Str)
    (a : Article) (H : articleDated jsISO a) (now1 now2 : Str) :
    renderArticle jsISO jsLoc now1 tpl a = renderArticle jsISO jsLoc now2 tpl a := by
  obtain ⟨c, u, hc, hcne, hciso, hu, hune, huiso⟩ := H
  obtain ⟨cv, hcv⟩ := Option.isSome_iff_exists.mp hciso
  obtain ⟨uv, huv⟩ := Option.isSome_iff_exists.mp huiso
  simp only [renderArticle, hc, hu, jsOr_some hcne, jsOr_some hune, formatISO,
    hcv, huv]

theorem mkPage_now_indep (jsISO : Str → Option Str) (a : Article)
    (H : articleDated jsISO a) (now1 now2 : Str) :
    mkPage jsISO now1 a = mkPage jsISO now2 a := by
  obtain ⟨c, u, hc, hcne, hciso, hu, hune, huiso⟩ := H
  obtain ⟨uv, huv⟩ := Option.isSome_iff_exists.mp huiso
  simp only [mkPage, hu, jsOr_some hune, formatISO, huv]

theorem pages_now_indep (jsISO : Str → Option Str) (articles : List Article)
    (H : ∀ a ∈ articles, articleDated jsISO a) (now1 now2 : Str) :
    articles.map (mkPage jsISO now1) = articles.map (mkPage jsISO now2) :=
  List.map_congr_left fun a ha => mkPage_now_indep jsISO a (H a ha) now1 now2

theorem articleSitemapEntries_now_indep (jsISO : Str → Option Str)
    (articles : List Article) (H : ∀ a ∈ articles, articleDated jsISO a)
    (now1 now2 : Str) :
    articleSitemapEntries jsISO now1 articles (articles.map (mkPage jsISO now2)) =
      articleSitemapEntries jsISO now2 articles (articles.map (mkPage jsISO now2)) := by
  unfold articleSitemapEntries
  congr 1
  refine List.map_congr_left fun p hp => ?_
  obtain ⟨a, ha, rfl⟩ := List.mem_map.mp hp
  have hfind : (articles.find? fun a' => slugOf a' == (mkPage jsISO now2 a).slug).isSome := by
    rw [List.find?_isSome]
    exact ⟨a, ha, by simp [mkPage]⟩
  obtain ⟨a', hfa⟩ := Option.isSome_iff_exists.mp hfind
  have ha' : a' ∈ articles := List.mem_of_find?_eq_some hfa
  obtain ⟨c, u, hc, hcne, hciso, hu, hune, huiso⟩ := H a' ha'
  obtain ⟨uv, huv⟩ := Option.isSome_iff_exists.mp huiso
  simp only [hfa, hu, isEmpty_false_of_ne hune, formatISO, huv, Bool.false_eq_true,
    if_false]

/-- C4 amended.  For fixed API data in which every article carries parseable
creation and update timestamps, two runs differ only inside the sitemap, and
there only in the `lastmod` fields of the eight static entries, which always
receive the run clock; every other output file is byte-identical.  (Without
that proviso the claim fails: the page renderer, not only the artifact
writer, substitutes the run time into date fields of articles lacking
timestamps, as the counterexample shows.) -/
theorem pipeline_run_time_only_fallback (jsISO jsLoc : Str → Option Str)
    (now1 now2 : Str) (tpls : Templates) (articles : List Article)
    (tips : List Tip) (H : ∀ a ∈ articles, articleDated jsISO a) :
    ∃ pre post entries,
      pipelineWrites jsISO jsLoc now1 tpls articles tips =
        pre ++ [(sitemapPath,
          sitemapDoc (staticSitemapLocs.map (fun l => (l, now1)) ++ entries))] ++ post ∧
      pipelineWrites jsISO jsLoc now2 tpls articles tips =
        pre ++ [(sitemapPath,
          sitemapDoc (staticSitemapLocs.map (fun l => (l, now2)) ++ entries))] ++ post := by
  have hfiles :
      (articles.map fun a =>
        [(articleIndexPath (slugOf a), renderArticle jsISO jsLoc now1 tpls.articleTpl a),
         (articleFlatPath (slugOf a), renderArticle jsISO jsLoc now1 tpls.articleTpl a)]) =
      articles.map fun a =>
        [(articleIndexPath (slugOf a), renderArticle jsISO jsLoc now2 tpls.articleTpl a),
         (articleFlatPath (slugOf a), renderArticle jsISO jsLoc now2 tpls.articleTpl a)] :=
    List.map_congr_left fun a ha => by
      rw [renderArticle_now_indep jsISO jsLoc tpls.articleTpl a (H a ha) now1 now2]
  refine ⟨((articles.map fun a =>
      [(articleIndexPath (slugOf a), renderArticle jsISO jsLoc now2 tpls.articleTpl a),
       (articleFlatPath (slugOf a), renderArticle jsISO jsLoc now2 tpls.articleTpl a)]).flatten) ++
    [(articlesIndexPath,
        replaceAll (str "\x7b\x7bARTICLE_ROWS\x7d\x7d")
          (joinSep (str "\n")
            ((articles.map (mkPage jsISO now2)).map (articleRow jsLoc articles)))
          tpls.listTpl),
     (articlesFlatPath,
        replaceAll (str "\x7b\x7bARTICLE_ROWS\x7d\x7d")
          (joinSep (str "\n")
            ((articles.map (mkPage jsISO now2)).map (articleRow jsLoc articles)))
          tpls.listTpl),
     (tipsIndexPath,
        replaceAll (str "\x7b\x7bTIP_ROWS\x7d\x7d")
          (joinSep (str "\n") (tips.map (tipRow jsLoc))) tpls.tipsListTpl),
     (tipsFlatPath,
        replaceAll (str "\x7b\x7bTIP_ROWS\x7d\x7d")
          (joinSep (str "\n") (tips.map (tipRow jsLoc))) tpls.tipsListTpl)],
    [(robotsPath, robotsTxt), (cnamePath, cnameFile)],
    articleSitemapEntries jsISO now2 articles (articles.map (mkPage jsISO now2)),
    ?_, ?_⟩
  · simp only [pipelineWrites, sitemapUrls]
    rw [hfiles, pages_now_indep jsISO articles H now1 now2,
      articleSitemapEntries_now_indep jsISO articles H now1 now2]
    simp [List.append_assoc]
  · simp only [pipelineWrites, sitemapUrls]
    simp [List.append_assoc]

theorem pipeline_run_time_only_fallback_witness :
    (∀ a ∈ [datedArticle], articleDated jsISOId a) ∧
    ∃ pre post entries,
      pipelineWrites jsISOId jsLocNone (str "T1") cexTpls [datedArticle] [] =
        pre ++ [(sitemapPath,
          sitemapDoc (staticSitemapLocs.map (fun l => (l, str "T1")) ++ entries))] ++ post ∧
      pipelineWrites jsISOId jsLocNone (str "T2") cexTpls [datedArticle] [] =
        pre ++ [(sitemapPath,
          sitemapDoc (staticSitemapLocs.map (fun l => (l, str "T2")) ++ entries))] ++ post := by
  have hH : ∀ a ∈ [datedArticle], articleDated jsISOId a := by
    intro a ha
    rw [List.mem_singleton] at ha
    subst ha
    exact ⟨str "2024-01-02", str "2024-03-04", rfl, by decide, rfl, rfl, by decide, rfl⟩
  exact ⟨hH, pipeline_run_time_only_fallback jsISOId jsLocNone (str "T1") (str "T2")
    cexTpls [datedArticle] [] hH⟩
